import Mathlib

/-! # Shallow embedding of the YugabyteDB RPC wire-protocol layer

Model of src/yb/rpc/yb_rpc.cc: length-prefixed frame extraction
(YBConnectionContext::ProcessCalls), the read hint
(YBConnectionContext::MaxReceive), inbound-call parsing
(YBInboundCall::ParseFrom), client deadlines
(YBInboundCall::GetClientDeadline), inbound-call dispatch
(YBConnectionContext::HandleInboundCall) and response serialization
(YBInboundCall::SerializeResponseBuffer, Serialize, Respond).

Bytes are lists of naturals (each below 256 on real wire data; the
framing functions never need that bound).  Machine integers are naturals,
reduced modulo 2^32 exactly where the source performs uint32 arithmetic. -/

namespace YbRpc

/-- Frame length-prefix size in bytes (kMsgLengthPrefixLength). -/
def kMsgLengthPrefixLength : Nat := 4

/-- Fixed big-packet read threshold, 128 KB (kBigPacket in yb_rpc.cc). -/
def kBigPacket : Nat := 131072

/-- Default maximum RPC message size, 8 MB (FLAGS_rpc_max_message_size). -/
def defaultMaxMessageSize : Nat := 8388608

/-- Big-endian 32-bit load of four bytes (NetworkByteOrder::Load32). -/
def load32 (b0 b1 b2 b3 : Nat) : Nat :=
  ((b0 * 256 + b1) * 256 + b2) * 256 + b3

/-- Error taxonomy for the code paths modelled here: a Status that is not OK. -/
inductive RpcError where
  | networkError (totalLength limit : Nat)
  | corruption (msg : String)
  | other (msg : String)
deriving DecidableEq, Repr

/-- Outcome of one ProcessCalls invocation: the returned Status, the value
written through the consumed out-parameter (none when the source returns
on an error path before the single write at yb_rpc.cc:84), and the frame
bodies passed to HandleCall, in order. -/
structure ProcessResult where
  status : Except RpcError Unit
  consumed : Option Nat
  handled : List (List Nat)
deriving Repr

/-- YBConnectionContext::ProcessCalls (yb_rpc.cc:57-86), parameterised by
the per-frame handler (HandleCall).  While at least 4 bytes remain: load
the big-endian length, fail with NetworkError when prefix+body exceeds
the limit, stop (without consuming) when the frame is incomplete,
otherwise hand the body to the handler and continue past the frame. -/
def processCalls (maxMsg : Nat) (handle : List Nat → Except RpcError Unit) :
    List Nat → ProcessResult
  | b0 :: b1 :: b2 :: b3 :: rest =>
    let dataLength := load32 b0 b1 b2 b3
    let totalLength := dataLength + kMsgLengthPrefixLength
    if totalLength > maxMsg then
      ⟨.error (.networkError totalLength maxMsg), none, []⟩
    else if rest.length < dataLength then
      ⟨.ok (), some 0, []⟩
    else
      let body := rest.take dataLength
      match handle body with
      | .error e => ⟨.error e, none, [body]⟩
      | .ok () =>
        let r := processCalls maxMsg handle (rest.drop dataLength)
        ⟨r.status, r.consumed.map (· + totalLength), body :: r.handled⟩
  | _ => ⟨.ok (), some 0, []⟩
termination_by s => s.length
decreasing_by
  simp only [List.length_cons, List.length_drop]
  omega

/-- The value held by the consumed out-parameter after ProcessCalls
returns, given the value it held before the call: the source assigns it
only on the success path (yb_rpc.cc:84). -/
def finalConsumed (r : ProcessResult) (consumed0 : Nat) : Nat :=
  match r.consumed with
  | some c => c
  | none => consumed0

/-- YBConnectionContext::MaxReceive (yb_rpc.cc:88-94). -/
def maxReceive : List Nat → Nat
  | b0 :: b1 :: b2 :: b3 :: _ =>
    max kBigPacket (load32 b0 b1 b2 b3 + kMsgLengthPrefixLength)
  | _ => kBigPacket

/-- Incremental driver: feed the stream chunk by chunk, each time invoking
ProcessCalls on the accumulated unconsumed buffer and dropping the bytes
it reports consumed.  Returns the final unconsumed buffer and every frame
body handled along the way. -/
def runIncremental (maxMsg : Nat) (handle : List Nat → Except RpcError Unit) :
    List (List Nat) → List Nat → Except RpcError (List Nat × List (List Nat))
  | [], buf => .ok (buf, [])
  | chunk :: chunks, buf =>
    let r := processCalls maxMsg handle (buf ++ chunk)
    match r.status, r.consumed with
    | .ok (), some c =>
      match runIncremental maxMsg handle chunks ((buf ++ chunk).drop c) with
      | .ok (leftover, frames) => .ok (leftover, r.handled ++ frames)
      | .error e => .error e
    | .ok (), none => .error (.other "consumed out-parameter not written")
    | .error e, _ => .error e

/-- uint32 truncation. -/
def u32 (n : Nat) : Nat := n % 4294967296

/-- 4-byte big-endian encoding of a 32-bit value (inverse of load32 on
values below 2^32). -/
def enc32 (n : Nat) : List Nat :=
  [n / 16777216 % 256, n / 65536 % 256, n / 256 % 256, n % 256]

/-- Modelled from the spec: decoding primitive of the structural envelope
codec (serialization::ParseYBMessage lives in yb/rpc/serialization.cc,
which is not among the sources here).  Reads one big-endian 32-bit value. -/
def dec32 : List Nat → Except RpcError (Nat × List Nat)
  | b0 :: b1 :: b2 :: b3 :: rest => .ok (load32 b0 b1 b2 b3, rest)
  | _ => .error (.corruption "truncated integer")

/-- Modelled from the spec: reads exactly n bytes of an encoded field. -/
def decBytes : Nat → List Nat → Except RpcError (List Nat × List Nat)
  | 0, rest => .ok ([], rest)
  | _ + 1, [] => .error (.corruption "truncated bytes")
  | n + 1, b :: rest =>
    match decBytes n rest with
    | .ok (bs, rest2) => .ok (b :: bs, rest2)
    | .error e => .error e

/-- Modelled from the spec: length-prefixed byte-string field. -/
def encBytesField (s : List Nat) : List Nat := enc32 s.length ++ s

/-- Modelled from the spec: decoder matching encBytesField. -/
def decBytesField (b : List Nat) : Except RpcError (List Nat × List Nat) :=
  match dec32 b with
  | .ok (n, rest) => decBytes n rest
  | .error e => .error e

/-- Modelled from the spec: presence-tagged optional field. -/
def encOptField {α : Type} (f : α → List Nat) : Option α → List Nat
  | none => [0]
  | some a => 1 :: f a

/-- Modelled from the spec: decoder matching encOptField. -/
def decOptField {α : Type} (f : List Nat → Except RpcError (α × List Nat)) :
    List Nat → Except RpcError (Option α × List Nat)
  | 0 :: rest => .ok (none, rest)
  | 1 :: rest =>
    match f rest with
    | .ok (a, rest2) => .ok (some a, rest2)
    | .error e => .error e
  | _ => .error (.corruption "bad presence tag")

/-- The RemoteMethodPB message of the request header: both fields are
required, so a missing field models an uninitialized message. -/
structure RemoteMethodPB where
  service_name : Option (List Nat)
  method_name : Option (List Nat)
deriving DecidableEq, Repr

/-- MessageLite::IsInitialized for RemoteMethodPB: every required field
is present. -/
def RemoteMethodPB.isInitialized (m : RemoteMethodPB) : Bool :=
  m.service_name.isSome && m.method_name.isSome

/-- The fields of the request header consumed by yb_rpc.cc: call id,
optional remote-method designator, optional timeout in milliseconds. -/
structure RequestHeader where
  call_id : Nat
  remote_method : Option RemoteMethodPB
  timeout_millis : Option Nat
deriving DecidableEq, Repr

/-- Field-range side conditions under which the modelled codec is exact:
every 32-bit field value fits in 32 bits. -/
def RequestHeader.wellFormed (h : RequestHeader) : Prop :=
  h.call_id < 4294967296 ∧
  (∀ t, h.timeout_millis = some t → t < 4294967296) ∧
  (∀ m, h.remote_method = some m →
    (∀ s, m.service_name = some s → s.length < 4294967296) ∧
    (∀ s, m.method_name = some s → s.length < 4294967296))

/-- The RemoteMethod record stored on the call (remote_method_.FromPB). -/
structure RemoteMethod where
  service_name : List Nat
  method_name : List Nat
deriving DecidableEq, Repr

/-- Modelled from the spec: encoder for RemoteMethodPB. -/
def encRemoteMethod (m : RemoteMethodPB) : List Nat :=
  encOptField encBytesField m.service_name ++ encOptField encBytesField m.method_name

/-- Modelled from the spec: decoder for RemoteMethodPB. -/
def decRemoteMethod (b : List Nat) : Except RpcError (RemoteMethodPB × List Nat) :=
  match decOptField decBytesField b with
  | .error e => .error e
  | .ok (sn, rest) =>
    match decOptField decBytesField rest with
    | .error e => .error e
    | .ok (mn, rest2) => .ok (⟨sn, mn⟩, rest2)

/-- Modelled from the spec: encoder for the request header record. -/
def encRequestHeader (h : RequestHeader) : List Nat :=
  enc32 h.call_id ++ encOptField encRemoteMethod h.remote_method ++
    encOptField enc32 h.timeout_millis

/-- Modelled from the spec: decoder for the request header record. -/
def decRequestHeader (b : List Nat) : Except RpcError (RequestHeader × List Nat) :=
  match dec32 b with
  | .error e => .error e
  | .ok (cid, rest) =>
    match decOptField decRemoteMethod rest with
    | .error e => .error e
    | .ok (rm, rest2) =>
      match decOptField dec32 rest2 with
      | .error e => .error e
      | .ok (tm, rest3) => .ok (⟨cid, rm, tm⟩, rest3)

/-- Modelled from the spec: serialization::ParseYBMessage — the frame body
begins with a structurally-encoded header record, and the remainder is
the opaque payload region. -/
def parseYBMessage (b : List Nat) : Except RpcError (RequestHeader × List Nat) :=
  decRequestHeader b

/-- Modelled from the spec: a frame body carrying the given header and
opaque payload. -/
def encodeYBMessage (h : RequestHeader) (payload : List Nat) : List Nat :=
  encRequestHeader h ++ payload

/-- The state YBInboundCall::ParseFrom leaves on the call: the parsed
header, the opaque serialized request payload, and the stored remote
method. -/
structure YBInboundCallState where
  header : RequestHeader
  serialized_request : List Nat
  remote_method : RemoteMethod
deriving DecidableEq, Repr

/-- YBInboundCall::ParseFrom (yb_rpc.cc:165-184): parse the envelope from
a private copy of the frame body, fail with Corruption when the header
has no remote_method or when remote_method is not initialized, and on
success store the remote method on the call. -/
def parseFrom (source : List Nat) : Except RpcError YBInboundCallState :=
  match parseYBMessage source with
  | .error e => .error e
  | .ok (h, payload) =>
    match h.remote_method with
    | none => .error (.corruption
        "Non-connection context request header must specify remote_method")
    | some rm =>
      match rm.service_name, rm.method_name with
      | some sn, some mn => .ok ⟨h, payload, ⟨sn, mn⟩⟩
      | _, _ => .error (.corruption
          "remote_method in request header is not initialized")

/-- MonoTime: a monotonic clock reading in nanoseconds, or MonoTime::Max(). -/
inductive MonoTime where
  | fin (nanos : Nat)
  | maxTime
deriving DecidableEq, Repr

/-- MonoDelta::FromMilliseconds granularity. -/
def nanosPerMilli : Nat := 1000000

/-- YBInboundCall::GetClientDeadline (yb_rpc.cc:156-163): MonoTime::Max()
when the header has no timeout or a zero timeout, otherwise the recorded
arrival time plus the timeout in milliseconds. -/
def getClientDeadline (header : RequestHeader) (time_received : Nat) : MonoTime :=
  match header.timeout_millis with
  | none => .maxTime
  | some 0 => .maxTime
  | some t => .fin (time_received + t * nanosPerMilli)

/-- Observable effects of YBConnectionContext::HandleInboundCall
(yb_rpc.cc:128-147): the returned Status, the calls passed to Store, and
the calls passed to QueueInboundCall, in order. -/
structure HandleResult where
  status : Except RpcError Unit
  stored : List YBInboundCallState
  queued : List YBInboundCallState
deriving Repr

/-- YBConnectionContext::HandleInboundCall (yb_rpc.cc:128-147): construct
the call, ParseFrom, return on failure; Store (a collaborator declared
outside this file, hence a parameter), return on failure; then queue the
call for dispatch. -/
def handleInboundCall (store : YBInboundCallState → Except RpcError Unit)
    (call_data : List Nat) : HandleResult :=
  match parseFrom call_data with
  | .error e => ⟨.error e, [], []⟩
  | .ok call =>
    match store call with
    | .error e => ⟨.error e, [call], []⟩
    | .ok () => ⟨.ok (), [call], [call]⟩

/-- The ResponseHeader record produced by SerializeResponseBuffer. -/
structure ResponseHeader where
  call_id : Nat
  is_error : Bool
  sidecar_offsets : List Nat
deriving DecidableEq, Repr

/-- The sidecar-offset loop of SerializeResponseBuffer (yb_rpc.cc:196-200):
absolute_sidecar_offset is a uint32 starting at the payload size; each
sidecar records the current offset into the header and then advances the
offset by its size (uint32 arithmetic).  Returns the recorded offsets and
the final offset. -/
def sidecarOffsetsLoop (start : Nat) : List (List Nat) → List Nat × Nat
  | [] => ([], start)
  | car :: cars =>
    let next := sidecarOffsetsLoop (u32 (start + car.length)) cars
    (start :: next.1, next.2)

/-- The response header built by SerializeResponseBuffer (yb_rpc.cc:193-200):
the original call id echoed back, is_error set iff the response is not a
success, and the sidecar offsets produced by the offset loop starting at
the payload size (a uint32). -/
def responseHeaderOf (header : RequestHeader) (sidecars : List (List Nat))
    (payload : List Nat) (is_success : Bool) : ResponseHeader :=
  ⟨header.call_id, !is_success, (sidecarOffsetsLoop (u32 payload.length) sidecars).1⟩

/-- Modelled from the spec: serialization::SerializeHeader — serializes
the outer length prefix (from the total downstream size) and the response
header record; the length of these bytes is the header_size
out-parameter. -/
def serializeHeaderBytes (h : ResponseHeader) (total_size : Nat) : List Nat :=
  enc32 total_size ++ enc32 h.call_id ++ [if h.is_error then 1 else 0] ++
    enc32 h.sidecar_offsets.length ++ (h.sidecar_offsets.map enc32).flatten

/-- YBInboundCall::SerializeResponseBuffer (yb_rpc.cc:186-228): build the
response header, compute additional_size as the final sidecar offset
minus the payload size (uint32 subtraction), then response_buf_ is the
header serialized against the total downstream size followed by the
payload (sidecars are appended only at Serialize time). -/
def serializeResponseBuffer (header : RequestHeader) (sidecars : List (List Nat))
    (payload : List Nat) (is_success : Bool) : List Nat :=
  let protobuf_msg_size := u32 payload.length
  let absolute_sidecar_offset := (sidecarOffsetsLoop protobuf_msg_size sidecars).2
  let additional_size := u32 (absolute_sidecar_offset + 4294967296 - protobuf_msg_size)
  serializeHeaderBytes (responseHeaderOf header sidecars payload is_success)
    (payload.length + additional_size) ++ payload

/-- YBInboundCall::Serialize (yb_rpc.cc:275-282): CHECK_GT demands a
non-empty response buffer (none models the CHECK firing), then the output
deque receives the response buffer followed by each sidecar in order. -/
def serializeCall (response_buf : List Nat) (sidecars : List (List Nat)) :
    Option (List (List Nat)) :=
  if 0 < response_buf.length then some (response_buf :: sidecars) else none

/-- Observable effects of YBInboundCall::Respond (yb_rpc.cc:342-353):
whether the serialization failure was logged as a DFATAL defect, and
whether QueueResponse was invoked.  Respond returns void, so no status
can propagate to its caller. -/
structure RespondResult where
  loggedDFatal : Bool
  queuedResponse : Bool
deriving DecidableEq, Repr

/-- YBInboundCall::Respond (yb_rpc.cc:342-353) as a function of the
Status SerializeResponseBuffer returned: a failure is logged via
LOG(DFATAL), and QueueResponse(is_success) runs unconditionally after
the if-block. -/
def respond (serializeStatus : Except RpcError Unit) : RespondResult :=
  match serializeStatus with
  | .error _ => ⟨true, true⟩
  | .ok () => ⟨false, true⟩

/-! ## Frame-extraction lemmas -/

theorem processCalls_short (maxMsg : Nat) (handle : List Nat → Except RpcError Unit)
    (s : List Nat) (h : s.length < kMsgLengthPrefixLength) :
    processCalls maxMsg handle s = ⟨.ok (), some 0, []⟩ := by
  match s with
  | [] => simp [processCalls]
  | [_] => simp [processCalls]
  | [_, _] => simp [processCalls]
  | [_, _, _] => simp [processCalls]
  | _ :: _ :: _ :: _ :: _ =>
    simp only [List.length_cons, kMsgLengthPrefixLength] at h
    omega

theorem processCalls_oversize_eq (maxMsg : Nat)
    (handle : List Nat → Except RpcError Unit) (b0 b1 b2 b3 : Nat) (rest : List Nat)
    (h : load32 b0 b1 b2 b3 + kMsgLengthPrefixLength > maxMsg) :
    processCalls maxMsg handle (b0 :: b1 :: b2 :: b3 :: rest) =
      ⟨.error (.networkError (load32 b0 b1 b2 b3 + kMsgLengthPrefixLength) maxMsg),
        none, []⟩ := by
  rw [processCalls]
  simp only [h, if_pos]

theorem processCalls_incomplete_eq (maxMsg : Nat)
    (handle : List Nat → Except RpcError Unit) (b0 b1 b2 b3 : Nat) (rest : List Nat)
    (hle : ¬ load32 b0 b1 b2 b3 + kMsgLengthPrefixLength > maxMsg)
    (hshort : rest.length < load32 b0 b1 b2 b3) :
    processCalls maxMsg handle (b0 :: b1 :: b2 :: b3 :: rest) =
      ⟨.ok (), some 0, []⟩ := by
  rw [processCalls]
  simp only [if_neg hle, if_pos hshort]

theorem processCalls_handlerError_eq (maxMsg : Nat)
    (handle : List Nat → Except RpcError Unit) (b0 b1 b2 b3 : Nat) (rest : List Nat)
    (e : RpcError)
    (hle : ¬ load32 b0 b1 b2 b3 + kMsgLengthPrefixLength > maxMsg)
    (hlong : ¬ rest.length < load32 b0 b1 b2 b3)
    (he : handle (rest.take (load32 b0 b1 b2 b3)) = .error e) :
    processCalls maxMsg handle (b0 :: b1 :: b2 :: b3 :: rest) =
      ⟨.error e, none, [rest.take (load32 b0 b1 b2 b3)]⟩ := by
  rw [processCalls]
  simp only [if_neg hle, if_neg hlong, he]

theorem processCalls_step_eq (maxMsg : Nat)
    (handle : List Nat → Except RpcError Unit) (b0 b1 b2 b3 : Nat) (rest : List Nat)
    (hle : ¬ load32 b0 b1 b2 b3 + kMsgLengthPrefixLength > maxMsg)
    (hlong : ¬ rest.length < load32 b0 b1 b2 b3)
    (hok : handle (rest.take (load32 b0 b1 b2 b3)) = .ok ()) :
    processCalls maxMsg handle (b0 :: b1 :: b2 :: b3 :: rest) =
      ⟨(processCalls maxMsg handle (rest.drop (load32 b0 b1 b2 b3))).status,
        (processCalls maxMsg handle (rest.drop (load32 b0 b1 b2 b3))).consumed.map
          (· + (load32 b0 b1 b2 b3 + kMsgLengthPrefixLength)),
        rest.take (load32 b0 b1 b2 b3) ::
          (processCalls maxMsg handle (rest.drop (load32 b0 b1 b2 b3))).handled⟩ := by
  rw [processCalls]
  simp only [if_neg hle, if_neg hlong, hok]

theorem processCalls_ok_consumed (maxMsg : Nat)
    (handle : List Nat → Except RpcError Unit) (s : List Nat)
    (h : (processCalls maxMsg handle s).status = .ok ()) :
    ∃ c, (processCalls maxMsg handle s).consumed = some c ∧ c ≤ s.length ∧
      c = ((processCalls maxMsg handle s).handled.map
            (fun b => b.length + kMsgLengthPrefixLength)).sum := by
  induction s using processCalls.induct maxMsg handle with
  | case1 b0 b1 b2 b3 rest dataLength totalLength hover =>
    rw [processCalls_oversize_eq maxMsg handle b0 b1 b2 b3 rest hover] at h
    simp at h
  | case2 b0 b1 b2 b3 rest dataLength totalLength hle hshort =>
    rw [processCalls_incomplete_eq maxMsg handle b0 b1 b2 b3 rest hle hshort]
    exact ⟨0, rfl, Nat.zero_le _, rfl⟩
  | case3 b0 b1 b2 b3 rest dataLength totalLength hle hlong body e he =>
    rw [processCalls_handlerError_eq maxMsg handle b0 b1 b2 b3 rest e hle hlong he] at h
    simp at h
  | case4 b0 b1 b2 b3 rest dataLength totalLength hle hlong body hok ih =>
    have hdl : dataLength = load32 b0 b1 b2 b3 := rfl
    rw [processCalls_step_eq maxMsg handle b0 b1 b2 b3 rest hle hlong hok] at h ⊢
    simp only at h ⊢
    obtain ⟨c, hc, hcle, hcsum⟩ := ih h
    rw [hdl] at hc hcle hcsum
    refine ⟨c + (load32 b0 b1 b2 b3 + kMsgLengthPrefixLength), ?_, ?_, ?_⟩
    · rw [hc]
      rfl
    · simp only [List.length_drop] at hcle
      simp only [List.length_cons, kMsgLengthPrefixLength] at *
      omega
    · simp only [List.map_cons, List.sum_cons, List.length_take]
      simp only [not_lt] at hlong
      rw [Nat.min_eq_left hlong]
      omega
  | case5 s hnc =>
    have hlen : s.length < kMsgLengthPrefixLength := by
      match s with
      | [] => simp [kMsgLengthPrefixLength]
      | [_] => simp [kMsgLengthPrefixLength]
      | [_, _] => simp [kMsgLengthPrefixLength]
      | [_, _, _] => simp [kMsgLengthPrefixLength]
      | a :: b :: c :: d :: r => exact absurd rfl (hnc a b c d r)
    rw [processCalls_short maxMsg handle s hlen]
    exact ⟨0, rfl, Nat.zero_le _, rfl⟩

theorem drop_cons_four (b0 b1 b2 b3 : Nat) (l : List Nat) (k : Nat) :
    (b0 :: b1 :: b2 :: b3 :: l).drop (k + 4) = l.drop k := by
  simp [List.drop_succ_cons]

theorem processCalls_drop_consumed (maxMsg : Nat)
    (handle : List Nat → Except RpcError Unit) (s : List Nat) (c : Nat)
    (hok : (processCalls maxMsg handle s).status = .ok ())
    (hc : (processCalls maxMsg handle s).consumed = some c) :
    processCalls maxMsg handle (s.drop c) = ⟨.ok (), some 0, []⟩ := by
  induction s using processCalls.induct maxMsg handle generalizing c with
  | case1 b0 b1 b2 b3 rest dataLength totalLength hover =>
    rw [processCalls_oversize_eq maxMsg handle b0 b1 b2 b3 rest hover] at hok
    simp at hok
  | case2 b0 b1 b2 b3 rest dataLength totalLength hle hshort =>
    rw [processCalls_incomplete_eq maxMsg handle b0 b1 b2 b3 rest hle hshort] at hc
    have hc0 : c = 0 := by simpa using hc.symm
    subst hc0
    rw [List.drop_zero]
    exact processCalls_incomplete_eq maxMsg handle b0 b1 b2 b3 rest hle hshort
  | case3 b0 b1 b2 b3 rest dataLength totalLength hle hlong body e he =>
    rw [processCalls_handlerError_eq maxMsg handle b0 b1 b2 b3 rest e hle hlong he] at hok
    simp at hok
  | case4 b0 b1 b2 b3 rest dataLength totalLength hle hlong body hok4 ih =>
    rw [processCalls_step_eq maxMsg handle b0 b1 b2 b3 rest hle hlong hok4] at hok hc
    simp only at hok hc
    rcases hinner : (processCalls maxMsg handle
        (rest.drop (load32 b0 b1 b2 b3))).consumed with _ | c1
    · rw [hinner] at hc
      simp at hc
    · rw [hinner] at hc
      have hceq : c = c1 + (load32 b0 b1 b2 b3 + kMsgLengthPrefixLength) := by
        simpa using hc.symm
      have hsdrop : (b0 :: b1 :: b2 :: b3 :: rest).drop c =
          (rest.drop (load32 b0 b1 b2 b3)).drop c1 := by
        rw [List.drop_drop, hceq]
        have harith : c1 + (load32 b0 b1 b2 b3 + kMsgLengthPrefixLength) =
            (load32 b0 b1 b2 b3 + c1) + 4 := by
          simp only [kMsgLengthPrefixLength]
          omega
        rw [harith, drop_cons_four]
      rw [hsdrop]
      exact ih c1 hok hinner
  | case5 s hnc =>
    have hlen : s.length < kMsgLengthPrefixLength := by
      match s with
      | [] => simp [kMsgLengthPrefixLength]
      | [_] => simp [kMsgLengthPrefixLength]
      | [_, _] => simp [kMsgLengthPrefixLength]
      | [_, _, _] => simp [kMsgLengthPrefixLength]
      | a :: b :: c :: d :: r => exact absurd rfl (hnc a b c d r)
    rw [processCalls_short maxMsg handle s hlen] at hc
    have hc0 : c = 0 := by simpa using hc.symm
    subst hc0
    rw [List.drop_zero]
    exact processCalls_short maxMsg handle s hlen

theorem processCalls_append (maxMsg : Nat)
    (handle : List Nat → Except RpcError Unit) (s t : List Nat) (c : Nat)
    (hok : (processCalls maxMsg handle s).status = .ok ())
    (hc : (processCalls maxMsg handle s).consumed = some c) :
    (processCalls maxMsg handle (s ++ t)).status =
        (processCalls maxMsg handle (s.drop c ++ t)).status ∧
      (processCalls maxMsg handle (s ++ t)).consumed =
        (processCalls maxMsg handle (s.drop c ++ t)).consumed.map (· + c) ∧
      (processCalls maxMsg handle (s ++ t)).handled =
        (processCalls maxMsg handle s).handled ++
          (processCalls maxMsg handle (s.drop c ++ t)).handled := by
  induction s using processCalls.induct maxMsg handle generalizing c with
  | case1 b0 b1 b2 b3 rest dataLength totalLength hover =>
    rw [processCalls_oversize_eq maxMsg handle b0 b1 b2 b3 rest hover] at hok
    simp at hok
  | case2 b0 b1 b2 b3 rest dataLength totalLength hle hshort =>
    rw [processCalls_incomplete_eq maxMsg handle b0 b1 b2 b3 rest hle hshort] at hc
    have hc0 : c = 0 := by simpa using hc.symm
    subst hc0
    rw [processCalls_incomplete_eq maxMsg handle b0 b1 b2 b3 rest hle hshort]
    simp only [List.drop_zero, List.nil_append]
    refine ⟨by trivial, ?_, by trivial⟩
    cases hcons : (processCalls maxMsg handle
        ((b0 :: b1 :: b2 :: b3 :: rest) ++ t)).consumed <;> simp [hcons]
  | case3 b0 b1 b2 b3 rest dataLength totalLength hle hlong body e he =>
    rw [processCalls_handlerError_eq maxMsg handle b0 b1 b2 b3 rest e hle hlong he] at hok
    simp at hok
  | case4 b0 b1 b2 b3 rest dataLength totalLength hle hlong body hok4 ih =>
    have hlong2 : load32 b0 b1 b2 b3 ≤ rest.length := Nat.not_lt.mp hlong
    rw [processCalls_step_eq maxMsg handle b0 b1 b2 b3 rest hle hlong hok4] at hok hc
    simp only at hok hc
    rcases hinner : (processCalls maxMsg handle
        (rest.drop (load32 b0 b1 b2 b3))).consumed with _ | c1
    · rw [hinner] at hc
      simp at hc
    · rw [hinner] at hc
      have hceq : c = c1 + (load32 b0 b1 b2 b3 + kMsgLengthPrefixLength) := by
        simpa using hc.symm
      have hsplit : (b0 :: b1 :: b2 :: b3 :: rest) ++ t =
          b0 :: b1 :: b2 :: b3 :: (rest ++ t) := rfl
      have hlongt : ¬ (rest ++ t).length < load32 b0 b1 b2 b3 := by
        simp only [List.length_append]
        omega
      have htake : (rest ++ t).take (load32 b0 b1 b2 b3) =
          rest.take (load32 b0 b1 b2 b3) :=
        List.take_append_of_le_length hlong2
      have hdrop : (rest ++ t).drop (load32 b0 b1 b2 b3) =
          rest.drop (load32 b0 b1 b2 b3) ++ t :=
        List.drop_append_of_le_length hlong2
      have hok2 : handle ((rest ++ t).take (load32 b0 b1 b2 b3)) = .ok () := by
        rw [htake]
        exact hok4
      have hsdrop : (b0 :: b1 :: b2 :: b3 :: rest).drop c =
          (rest.drop (load32 b0 b1 b2 b3)).drop c1 := by
        rw [List.drop_drop, hceq]
        have harith : c1 + (load32 b0 b1 b2 b3 + kMsgLengthPrefixLength) =
            (load32 b0 b1 b2 b3 + c1) + 4 := by
          simp only [kMsgLengthPrefixLength]
          omega
        rw [harith, drop_cons_four]
      obtain ⟨ih1, ih2, ih3⟩ := ih c1 hok hinner
      rw [hsplit, processCalls_step_eq maxMsg handle b0 b1 b2 b3 (rest ++ t) hle hlongt hok2,
        processCalls_step_eq maxMsg handle b0 b1 b2 b3 rest hle hlong hok4, hsdrop]
      simp only [hdrop, htake]
      refine ⟨ih1, ?_, ?_⟩
      · rw [ih2]
        cases hS : (processCalls maxMsg handle
            ((rest.drop (load32 b0 b1 b2 b3)).drop c1 ++ t)).consumed <;>
          simp [hS, hceq]
        omega
      · rw [ih3]
        simp
  | case5 s hnc =>
    have hlen : s.length < kMsgLengthPrefixLength := by
      match s with
      | [] => simp [kMsgLengthPrefixLength]
      | [_] => simp [kMsgLengthPrefixLength]
      | [_, _] => simp [kMsgLengthPrefixLength]
      | [_, _, _] => simp [kMsgLengthPrefixLength]
      | a :: b :: c :: d :: r => exact absurd rfl (hnc a b c d r)
    rw [processCalls_short maxMsg handle s hlen] at hc
    have hc0 : c = 0 := by simpa using hc.symm
    subst hc0
    rw [processCalls_short maxMsg handle s hlen]
    simp only [List.drop_zero, List.nil_append]
    refine ⟨by trivial, ?_, by trivial⟩
    cases hcons : (processCalls maxMsg handle (s ++ t)).consumed <;> simp [hcons]

theorem processCalls_append_ok (maxMsg : Nat)
    (handle : List Nat → Except RpcError Unit) (s t : List Nat)
    (h : (processCalls maxMsg handle (s ++ t)).status = .ok ()) :
    (processCalls maxMsg handle s).status = .ok () := by
  induction s using processCalls.induct maxMsg handle with
  | case1 b0 b1 b2 b3 rest dataLength totalLength hover =>
    have hsplit : (b0 :: b1 :: b2 :: b3 :: rest) ++ t =
        b0 :: b1 :: b2 :: b3 :: (rest ++ t) := rfl
    rw [hsplit,
      processCalls_oversize_eq maxMsg handle b0 b1 b2 b3 (rest ++ t) hover] at h
    simp at h
  | case2 b0 b1 b2 b3 rest dataLength totalLength hle hshort =>
    rw [processCalls_incomplete_eq maxMsg handle b0 b1 b2 b3 rest hle hshort]
  | case3 b0 b1 b2 b3 rest dataLength totalLength hle hlong body e he =>
    have hlong2 : load32 b0 b1 b2 b3 ≤ rest.length := Nat.not_lt.mp hlong
    have hsplit : (b0 :: b1 :: b2 :: b3 :: rest) ++ t =
        b0 :: b1 :: b2 :: b3 :: (rest ++ t) := rfl
    have hlongt : ¬ (rest ++ t).length < load32 b0 b1 b2 b3 := by
      simp only [List.length_append]
      omega
    have he2 : handle ((rest ++ t).take (load32 b0 b1 b2 b3)) = .error e := by
      rw [List.take_append_of_le_length hlong2]
      exact he
    rw [hsplit,
      processCalls_handlerError_eq maxMsg handle b0 b1 b2 b3 (rest ++ t) e hle hlongt he2] at h
    simp at h
  | case4 b0 b1 b2 b3 rest dataLength totalLength hle hlong body hok4 ih =>
    have hlong2 : load32 b0 b1 b2 b3 ≤ rest.length := Nat.not_lt.mp hlong
    have hsplit : (b0 :: b1 :: b2 :: b3 :: rest) ++ t =
        b0 :: b1 :: b2 :: b3 :: (rest ++ t) := rfl
    have hlongt : ¬ (rest ++ t).length < load32 b0 b1 b2 b3 := by
      simp only [List.length_append]
      omega
    have hok2 : handle ((rest ++ t).take (load32 b0 b1 b2 b3)) = .ok () := by
      rw [List.take_append_of_le_length hlong2]
      exact hok4
    rw [hsplit,
      processCalls_step_eq maxMsg handle b0 b1 b2 b3 (rest ++ t) hle hlongt hok2] at h
    simp only [List.drop_append_of_le_length hlong2] at h
    rw [processCalls_step_eq maxMsg handle b0 b1 b2 b3 rest hle hlong hok4]
    exact ih h
  | case5 s hnc =>
    have hlen : s.length < kMsgLengthPrefixLength := by
      match s with
      | [] => simp [kMsgLengthPrefixLength]
      | [_] => simp [kMsgLengthPrefixLength]
      | [_, _] => simp [kMsgLengthPrefixLength]
      | [_, _, _] => simp [kMsgLengthPrefixLength]
      | a :: b :: c :: d :: r => exact absurd rfl (hnc a b c d r)
    rw [processCalls_short maxMsg handle s hlen]

theorem runIncremental_spec (maxMsg : Nat)
    (handle : List Nat → Except RpcError Unit) (chunks : List (List Nat)) :
    ∀ (buf : List Nat) (c : Nat),
      processCalls maxMsg handle buf = ⟨.ok (), some 0, []⟩ →
      (processCalls maxMsg handle (buf ++ chunks.flatten)).status = .ok () →
      (processCalls maxMsg handle (buf ++ chunks.flatten)).consumed = some c →
      runIncremental maxMsg handle chunks buf =
        .ok ((buf ++ chunks.flatten).drop c,
          (processCalls maxMsg handle (buf ++ chunks.flatten)).handled) := by
  induction chunks with
  | nil =>
    intro buf c h0 hst hc
    rw [List.flatten_nil, List.append_nil] at hst hc ⊢
    rw [h0] at hc ⊢
    have hc0 : c = 0 := by simpa using hc.symm
    subst hc0
    simp [runIncremental]
  | cons ch chunks ih =>
    intro buf c h0 hst hc
    rw [List.flatten_cons, ← List.append_assoc] at hst hc ⊢
    have hokB : (processCalls maxMsg handle (buf ++ ch)).status = .ok () :=
      processCalls_append_ok maxMsg handle (buf ++ ch) chunks.flatten hst
    obtain ⟨c1, hc1, hc1le, _⟩ :=
      processCalls_ok_consumed maxMsg handle (buf ++ ch) hokB
    obtain ⟨ha1, ha2, ha3⟩ :=
      processCalls_append maxMsg handle (buf ++ ch) chunks.flatten c1 hokB hc1
    have hstS : (processCalls maxMsg handle
        ((buf ++ ch).drop c1 ++ chunks.flatten)).status = .ok () := by
      rw [← ha1]
      exact hst
    have hcS := hc
    rw [ha2] at hcS
    rcases hS : (processCalls maxMsg handle
        ((buf ++ ch).drop c1 ++ chunks.flatten)).consumed with _ | c2
    · rw [hS] at hcS
      simp at hcS
    · rw [hS] at hcS
      have hceq : c = c2 + c1 := by simpa using hcS.symm
      have hres : processCalls maxMsg handle ((buf ++ ch).drop c1) =
          ⟨.ok (), some 0, []⟩ :=
        processCalls_drop_consumed maxMsg handle (buf ++ ch) c1 hokB hc1
      have hih := ih ((buf ++ ch).drop c1) c2 hres hstS hS
      have hdropeq : ((buf ++ ch) ++ chunks.flatten).drop c =
          ((buf ++ ch).drop c1 ++ chunks.flatten).drop c2 := by
        rw [← List.drop_append_of_le_length hc1le, List.drop_drop, hceq,
          Nat.add_comm c2 c1]
      simp only [runIncremental]
      simp only [hokB, hc1]
      rw [hih]
      simp only []
      rw [ha3, hdropeq]

/-! ## Envelope-codec round-trip lemmas -/

theorem dec32_enc32 (n : Nat) (hn : n < 4294967296) (rest : List Nat) :
    dec32 (enc32 n ++ rest) = .ok (n, rest) := by
  simp only [enc32, dec32, load32, List.cons_append, List.nil_append,
    Except.ok.injEq, Prod.mk.injEq]
  exact ⟨by omega, trivial⟩

theorem decBytes_append (s rest : List Nat) :
    decBytes s.length (s ++ rest) = .ok (s, rest) := by
  induction s with
  | nil => simp [decBytes]
  | cons a s ih => simp [decBytes, ih]

theorem decBytesField_enc (s rest : List Nat) (hs : s.length < 4294967296) :
    decBytesField (encBytesField s ++ rest) = .ok (s, rest) := by
  rw [encBytesField, List.append_assoc, decBytesField,
    dec32_enc32 s.length hs (s ++ rest)]
  exact decBytes_append s rest

theorem decOptField_enc {α : Type} (fenc : α → List Nat)
    (fdec : List Nat → Except RpcError (α × List Nat)) (o : Option α)
    (rest : List Nat)
    (hf : ∀ a, o = some a → fdec (fenc a ++ rest) = .ok (a, rest)) :
    decOptField fdec (encOptField fenc o ++ rest) = .ok (o, rest) := by
  cases o with
  | none => rfl
  | some a => simp [encOptField, decOptField, hf a rfl]

theorem decRemoteMethod_enc (m : RemoteMethodPB) (rest : List Nat)
    (h1 : ∀ s, m.service_name = some s → s.length < 4294967296)
    (h2 : ∀ s, m.method_name = some s → s.length < 4294967296) :
    decRemoteMethod (encRemoteMethod m ++ rest) = .ok (m, rest) := by
  have hs2 : decOptField decBytesField
      (encOptField encBytesField m.method_name ++ rest) = .ok (m.method_name, rest) :=
    decOptField_enc encBytesField decBytesField m.method_name rest
      (fun s hs => decBytesField_enc s rest (h2 s hs))
  have hs1 : decOptField decBytesField
      (encOptField encBytesField m.service_name ++
        (encOptField encBytesField m.method_name ++ rest)) =
      .ok (m.service_name, encOptField encBytesField m.method_name ++ rest) :=
    decOptField_enc encBytesField decBytesField m.service_name _
      (fun s hs => decBytesField_enc s _ (h1 s hs))
  rw [encRemoteMethod, List.append_assoc, decRemoteMethod]
  simp only [hs1, hs2]

theorem decRequestHeader_enc (h : RequestHeader) (payload : List Nat)
    (hwf : h.wellFormed) :
    decRequestHeader (encRequestHeader h ++ payload) = .ok (h, payload) := by
  obtain ⟨hcid, htm, hrm⟩ := hwf
  have h3 : decOptField dec32 (encOptField enc32 h.timeout_millis ++ payload) =
      .ok (h.timeout_millis, payload) :=
    decOptField_enc enc32 dec32 h.timeout_millis payload
      (fun t ht => dec32_enc32 t (htm t ht) payload)
  have h2 : decOptField decRemoteMethod
      (encOptField encRemoteMethod h.remote_method ++
        (encOptField enc32 h.timeout_millis ++ payload)) =
      .ok (h.remote_method, encOptField enc32 h.timeout_millis ++ payload) :=
    decOptField_enc encRemoteMethod decRemoteMethod h.remote_method _
      (fun m hm => decRemoteMethod_enc m _ ((hrm m hm).1) ((hrm m hm).2))
  have h1 : dec32 (enc32 h.call_id ++
      (encOptField encRemoteMethod h.remote_method ++
        (encOptField enc32 h.timeout_millis ++ payload))) =
      .ok (h.call_id, encOptField encRemoteMethod h.remote_method ++
        (encOptField enc32 h.timeout_millis ++ payload)) :=
    dec32_enc32 h.call_id hcid _
  rw [encRequestHeader, List.append_assoc, List.append_assoc, decRequestHeader]
  simp only [h1, h2, h3]

theorem parseFrom_encode (h : RequestHeader) (payload : List Nat)
    (hwf : h.wellFormed) (rm : RemoteMethodPB) (hrm : h.remote_method = some rm)
    (sn mn : List Nat) (hsn : rm.service_name = some sn)
    (hmn : rm.method_name = some mn) :
    parseFrom (encodeYBMessage h payload) = .ok ⟨h, payload, ⟨sn, mn⟩⟩ := by
  rw [parseFrom, encodeYBMessage, parseYBMessage,
    decRequestHeader_enc h payload hwf]
  simp [hrm, hsn, hmn]

theorem dec32_error_corruption (b : List Nat) (e : RpcError)
    (h : dec32 b = .error e) : ∃ msg, e = .corruption msg := by
  match b with
  | [] =>
    injection h with h2
    exact ⟨_, h2.symm⟩
  | [_] =>
    injection h with h2
    exact ⟨_, h2.symm⟩
  | [_, _] =>
    injection h with h2
    exact ⟨_, h2.symm⟩
  | [_, _, _] =>
    injection h with h2
    exact ⟨_, h2.symm⟩
  | _ :: _ :: _ :: _ :: _ => simp [dec32] at h

theorem decBytes_error_corruption (n : Nat) :
    ∀ (b : List Nat) (e : RpcError), decBytes n b = .error e →
      ∃ msg, e = .corruption msg := by
  induction n with
  | zero =>
    intro b e h
    simp [decBytes] at h
  | succ n ih =>
    intro b e h
    match b with
    | [] =>
      injection h with h2
      exact ⟨_, h2.symm⟩
    | x :: rest =>
      rw [decBytes] at h
      rcases hd : decBytes n rest with e2 | v
      · rw [hd] at h
        simp only [Except.error.injEq] at h
        subst h
        exact ih rest e2 hd
      · obtain ⟨bs, rest2⟩ := v
        rw [hd] at h
        simp at h

theorem decBytesField_error_corruption (b : List Nat) (e : RpcError)
    (h : decBytesField b = .error e) : ∃ msg, e = .corruption msg := by
  rw [decBytesField] at h
  rcases hd : dec32 b with e2 | v
  · rw [hd] at h
    simp only [Except.error.injEq] at h
    subst h
    exact dec32_error_corruption b e2 hd
  · obtain ⟨n, rest⟩ := v
    rw [hd] at h
    exact decBytes_error_corruption n rest e h

theorem decOptField_error_corruption {α : Type}
    (f : List Nat → Except RpcError (α × List Nat))
    (hf : ∀ b e, f b = .error e → ∃ msg, e = .corruption msg)
    (b : List Nat) (e : RpcError) (h : decOptField f b = .error e) :
    ∃ msg, e = .corruption msg := by
  match b with
  | [] =>
    injection h with h2
    exact ⟨_, h2.symm⟩
  | 0 :: rest => simp [decOptField] at h
  | 1 :: rest =>
    rw [decOptField] at h
    rcases hd : f rest with e2 | v
    · rw [hd] at h
      simp only [Except.error.injEq] at h
      subst h
      exact hf rest e2 hd
    · obtain ⟨a, rest2⟩ := v
      rw [hd] at h
      simp at h
  | (x + 2) :: rest =>
    injection h with h2
    exact ⟨_, h2.symm⟩

theorem decRemoteMethod_error_corruption (b : List Nat) (e : RpcError)
    (h : decRemoteMethod b = .error e) : ∃ msg, e = .corruption msg := by
  rw [decRemoteMethod] at h
  rcases hd : decOptField decBytesField b with e2 | v
  · rw [hd] at h
    simp only [Except.error.injEq] at h
    subst h
    exact decOptField_error_corruption decBytesField decBytesField_error_corruption
      b e2 hd
  · obtain ⟨sn, rest⟩ := v
    rw [hd] at h
    dsimp only at h
    rcases hd2 : decOptField decBytesField rest with e3 | v2
    · rw [hd2] at h
      simp only [Except.error.injEq] at h
      subst h
      exact decOptField_error_corruption decBytesField decBytesField_error_corruption
        rest e3 hd2
    · obtain ⟨mn, rest2⟩ := v2
      rw [hd2] at h
      simp at h

theorem decRequestHeader_error_corruption (b : List Nat) (e : RpcError)
    (h : decRequestHeader b = .error e) : ∃ msg, e = .corruption msg := by
  rw [decRequestHeader] at h
  rcases hd : dec32 b with e2 | v
  · rw [hd] at h
    simp only [Except.error.injEq] at h
    subst h
    exact dec32_error_corruption b e2 hd
  · obtain ⟨cid, rest⟩ := v
    rw [hd] at h
    dsimp only at h
    rcases hd2 : decOptField decRemoteMethod rest with e3 | v2
    · rw [hd2] at h
      simp only [Except.error.injEq] at h
      subst h
      exact decOptField_error_corruption decRemoteMethod
        decRemoteMethod_error_corruption rest e3 hd2
    · obtain ⟨rm, rest2⟩ := v2
      rw [hd2] at h
      dsimp only at h
      rcases hd3 : decOptField dec32 rest2 with e4 | v3
      · rw [hd3] at h
        simp only [Except.error.injEq] at h
        subst h
        exact decOptField_error_corruption dec32 dec32_error_corruption rest2 e4 hd3
      · obtain ⟨tm, rest3⟩ := v3
        rw [hd3] at h
        simp at h

/-- C2: an input whose first complete 4-byte big-endian prefix declares a
body length with body+prefix above the configured maximum makes
ProcessCalls return a NetworkError at once — the check precedes the
completeness test, so this holds for every suffix, including one shorter
than the declared body. -/
theorem processCalls_oversize_fails_immediately (maxMsg : Nat)
    (handle : List Nat → Except RpcError Unit)
    (b0 b1 b2 b3 : Nat) (rest : List Nat)
    (hover : load32 b0 b1 b2 b3 + kMsgLengthPrefixLength > maxMsg) :
    (processCalls maxMsg handle (b0 :: b1 :: b2 :: b3 :: rest)).status =
      .error (.networkError (load32 b0 b1 b2 b3 + kMsgLengthPrefixLength) maxMsg) := by
  rw [processCalls]
  simp only [hover, if_pos]

theorem processCalls_oversize_fails_immediately_witness :
    (processCalls 8 (fun _ => .ok ()) [0, 0, 0, 10]).status =
      .error (.networkError 14 8) :=
  processCalls_oversize_fails_immediately 8 (fun _ => .ok ()) 0 0 0 10 []
    (by decide)

/-- C9: MaxReceive returns the fixed big-packet threshold when fewer than
4 bytes are buffered, and otherwise the maximum of that threshold and the
first frame's total size (prefix plus declared big-endian body length). -/
theorem maxReceive_spec (s : List Nat) :
    (s.length < kMsgLengthPrefixLength → maxReceive s = kBigPacket) ∧
    (∀ b0 b1 b2 b3 rest, s = b0 :: b1 :: b2 :: b3 :: rest →
      maxReceive s = max kBigPacket (load32 b0 b1 b2 b3 + kMsgLengthPrefixLength)) := by
  constructor
  · intro hlen
    match s with
    | [] => rfl
    | [_] => rfl
    | [_, _] => rfl
    | [_, _, _] => rfl
    | _ :: _ :: _ :: _ :: _ =>
      simp [kMsgLengthPrefixLength] at hlen
      omega
  · intro b0 b1 b2 b3 rest hs
    subst hs
    rfl

/-- C3: for every chunking of a byte stream (one byte at a time, all at
once, or anything in between), repeatedly invoking ProcessCalls on the
accumulated unconsumed bytes handles the same sequence of frame bodies
as a single invocation on the whole stream and leaves the same
unconsumed tail; moreover every successful invocation reports a consumed
count that is a prefix length covering exactly the complete frames it
handled — never any byte of a partially available trailing frame. -/
theorem processCalls_chunking_invariant (maxMsg : Nat)
    (handle : List Nat → Except RpcError Unit) (chunks : List (List Nat))
    (c : Nat) (fs : List (List Nat))
    (hall : processCalls maxMsg handle chunks.flatten = ⟨.ok (), some c, fs⟩) :
    runIncremental maxMsg handle chunks [] = .ok (chunks.flatten.drop c, fs) ∧
    (c ≤ chunks.flatten.length ∧
      c = (fs.map (fun b => b.length + kMsgLengthPrefixLength)).sum) ∧
    (∀ s, (processCalls maxMsg handle s).status = .ok () →
      ∃ cs, (processCalls maxMsg handle s).consumed = some cs ∧ cs ≤ s.length ∧
        cs = ((processCalls maxMsg handle s).handled.map
              (fun b => b.length + kMsgLengthPrefixLength)).sum) := by
  have h0 : processCalls maxMsg handle ([] : List Nat) = ⟨.ok (), some 0, []⟩ :=
    processCalls_short maxMsg handle [] (by simp [kMsgLengthPrefixLength])
  have hst : (processCalls maxMsg handle (([] : List Nat) ++ chunks.flatten)).status =
      .ok () := by
    rw [List.nil_append, hall]
  have hc : (processCalls maxMsg handle (([] : List Nat) ++ chunks.flatten)).consumed =
      some c := by
    rw [List.nil_append, hall]
  refine ⟨?_, ⟨?_, ?_⟩, fun s hs => processCalls_ok_consumed maxMsg handle s hs⟩
  · have := runIncremental_spec maxMsg handle chunks [] c h0 hst hc
    rw [List.nil_append, hall] at this
    exact this
  · obtain ⟨cs, hcs, hcsle, _⟩ :=
      processCalls_ok_consumed maxMsg handle chunks.flatten (by rw [hall])
    rw [hall] at hcs
    have : cs = c := by simpa using hcs.symm
    omega
  · obtain ⟨cs, hcs, _, hsum⟩ :=
      processCalls_ok_consumed maxMsg handle chunks.flatten (by rw [hall])
    rw [hall] at hcs hsum
    have hcc : cs = c := by simpa using hcs.symm
    subst hcc
    simpa using hsum

theorem processCalls_chunking_invariant_witness :
    runIncremental defaultMaxMessageSize (fun _ => .ok ())
        [[0], [0], [0], [2], [7], [8], [0], [0]] [] =
      .ok ([0, 0], [[7, 8]]) ∧
    6 ≤ ([[0], [0], [0], [2], [7], [8], [0], [0]] : List (List Nat)).flatten.length :=
  ⟨(processCalls_chunking_invariant defaultMaxMessageSize (fun _ => .ok ())
      [[0], [0], [0], [2], [7], [8], [0], [0]] 6 [[7, 8]]
      (by simp [processCalls, load32, kMsgLengthPrefixLength, defaultMaxMessageSize])).1,
   ((processCalls_chunking_invariant defaultMaxMessageSize (fun _ => .ok ())
      [[0], [0], [0], [2], [7], [8], [0], [0]] 6 [[7, 8]]
      (by simp [processCalls, load32, kMsgLengthPrefixLength, defaultMaxMessageSize])).2.1).1⟩

/-- C4 as stated is refuted on the consumed out-parameter: on the frame
whose prefix declares a body of 9000000 bytes against the 8388608-byte
limit, ProcessCalls returns the oversize NetworkError but returns before
the single assignment to the consumed out-parameter (yb_rpc.cc:84), so
the out-parameter keeps its caller-provided value — here 7, not 0. -/
theorem processCalls_oversize_consumed_unwritten_cex :
    (processCalls defaultMaxMessageSize (fun _ => .ok ()) [0, 137, 84, 64]).status =
        .error (.networkError 9000004 8388608) ∧
    (processCalls defaultMaxMessageSize (fun _ => .ok ()) [0, 137, 84, 64]).consumed =
        none ∧
    finalConsumed
        (processCalls defaultMaxMessageSize (fun _ => .ok ()) [0, 137, 84, 64]) 7 ≠ 0 := by
  refine ⟨?_, ?_, ?_⟩ <;>
    simp [processCalls, finalConsumed, load32, kMsgLengthPrefixLength,
      defaultMaxMessageSize]

/-- C4 amended: a first frame declaring 9000000 body bytes against the
8388608-byte limit makes ProcessCalls return the oversize NetworkError
at once, with no frame handed to the handler and the consumed
out-parameter left unwritten — it keeps whatever value the caller gave
it, which is zero exactly when the caller initialized it to zero. -/
theorem processCalls_oversize_nine_million
    (handle : List Nat → Except RpcError Unit) (rest : List Nat) (consumed0 : Nat) :
    processCalls defaultMaxMessageSize handle (0 :: 137 :: 84 :: 64 :: rest) =
      ⟨.error (.networkError 9000004 8388608), none, []⟩ ∧
    finalConsumed
        (processCalls defaultMaxMessageSize handle (0 :: 137 :: 84 :: 64 :: rest))
        consumed0 = consumed0 := by
  have h := processCalls_oversize_eq defaultMaxMessageSize handle 0 137 84 64 rest
    (by simp [load32, kMsgLengthPrefixLength, defaultMaxMessageSize])
  constructor
  · rw [h]
    simp [load32, kMsgLengthPrefixLength, defaultMaxMessageSize]
  · rw [h]
    rfl

/-- C5: GetClientDeadline returns MonoTime::Max() (no expiration) iff the
header carries no timeout or a zero timeout; otherwise it returns exactly
the recorded arrival time plus the timeout in milliseconds; and a header
constructed with timeout T > 0, encoded and parsed back via ParseFrom,
yields deadline arrival + T. -/
theorem getClientDeadline_spec (header : RequestHeader) (time_received : Nat) :
    (getClientDeadline header time_received = .maxTime ↔
      header.timeout_millis = none ∨ header.timeout_millis = some 0) ∧
    (∀ t, 0 < t → header.timeout_millis = some t →
      getClientDeadline header time_received =
        .fin (time_received + t * nanosPerMilli)) ∧
    (∀ (h : RequestHeader) (payload : List Nat) (T : Nat) (rm : RemoteMethodPB)
        (sn mn : List Nat) (st : YBInboundCallState),
      h.wellFormed → h.remote_method = some rm → rm.service_name = some sn →
      rm.method_name = some mn → h.timeout_millis = some T → 0 < T →
      parseFrom (encodeYBMessage h payload) = .ok st →
      getClientDeadline st.header time_received =
        .fin (time_received + T * nanosPerMilli)) := by
  have hpos : ∀ (g : RequestHeader) (t : Nat), 0 < t → g.timeout_millis = some t →
      getClientDeadline g time_received = .fin (time_received + t * nanosPerMilli) := by
    intro g t ht hg
    obtain ⟨k, rfl⟩ : ∃ k, t = k + 1 := ⟨t - 1, by omega⟩
    rw [getClientDeadline, hg]
    rfl
  refine ⟨?_, hpos header, ?_⟩
  · cases hg : header.timeout_millis with
    | none => simp [getClientDeadline, hg]
    | some t =>
      cases t with
      | zero => simp [getClientDeadline, hg]
      | succ k => simp [getClientDeadline, hg]
  · intro h payload T rm sn mn st hwf hrm hsn hmn hT hTpos hparse
    rw [parseFrom_encode h payload hwf rm hrm sn mn hsn hmn] at hparse
    have hst : st = ⟨h, payload, ⟨sn, mn⟩⟩ := by
      simpa using hparse.symm
    subst hst
    exact hpos h T hTpos hT

theorem getClientDeadline_spec_witness :
    getClientDeadline ⟨1, some ⟨some [65], some [66]⟩, some 5⟩ 100 =
      .fin (100 + 5 * nanosPerMilli) ∧
    getClientDeadline ⟨1, some ⟨some [65], some [66]⟩, none⟩ 100 = .maxTime ∧
    getClientDeadline ⟨2, none, some 0⟩ 100 = .maxTime :=
  ⟨(getClientDeadline_spec ⟨1, some ⟨some [65], some [66]⟩, some 5⟩ 100).2.1 5
      (by norm_num) rfl,
   (getClientDeadline_spec ⟨1, some ⟨some [65], some [66]⟩, none⟩ 100).1.mpr
      (Or.inl rfl),
   (getClientDeadline_spec ⟨2, none, some 0⟩ 100).1.mpr (Or.inr rfl)⟩

/-- C6: ParseFrom fails exactly when the envelope fails to decode, when
the decoded header has no remote_method, or when remote_method is not
initialized; every failure is a Corruption error; on success the remote
method from the header is stored on the call; and for a well-formed
envelope whose header lacks remote_method the corruption error propagates
through HandleInboundCall (nothing stored, nothing queued for dispatch)
and through ProcessCalls to the connection-level caller, instead of any
error response being produced. -/
theorem parseFrom_corruption_spec :
    (∀ source e, parseFrom source = .error e → ∃ msg, e = .corruption msg) ∧
    (∀ source, (∃ st, parseFrom source = .ok st) ↔
      ∃ h p, parseYBMessage source = .ok (h, p) ∧
        ∃ rm, h.remote_method = some rm ∧ rm.isInitialized = true) ∧
    (∀ source st, parseFrom source = .ok st →
      ∃ rm, st.header.remote_method = some rm ∧
        rm.service_name = some st.remote_method.service_name ∧
        rm.method_name = some st.remote_method.method_name) ∧
    (∀ store, handleInboundCall store (encodeYBMessage ⟨7, none, none⟩ [6, 6]) =
      ⟨.error (.corruption
        "Non-connection context request header must specify remote_method"),
        [], []⟩) ∧
    (∀ store, (processCalls defaultMaxMessageSize
        (fun b => (handleInboundCall store b).status)
        (enc32 (encodeYBMessage ⟨7, none, none⟩ [6, 6]).length ++
          encodeYBMessage ⟨7, none, none⟩ [6, 6])).status =
      .error (.corruption
        "Non-connection context request header must specify remote_method")) := by
  refine ⟨?_, ?_, ?_, ?_, ?_⟩
  · intro source e hp
    rw [parseFrom] at hp
    rcases henv : parseYBMessage source with e2 | v
    · rw [henv] at hp
      dsimp only at hp
      injection hp with hpe
      subst hpe
      exact decRequestHeader_error_corruption source e2 henv
    · obtain ⟨hdr2, payload⟩ := v
      rw [henv] at hp
      dsimp only at hp
      rcases hrm : hdr2.remote_method with _ | rm
      · rw [hrm] at hp
        dsimp only at hp
        injection hp with hpe
        exact ⟨_, hpe.symm⟩
      · rw [hrm] at hp
        dsimp only at hp
        rcases hsn : rm.service_name with _ | sn <;>
          rcases hmn : rm.method_name with _ | mn <;>
            rw [hsn, hmn] at hp <;> dsimp only at hp
        · injection hp with hpe
          exact ⟨_, hpe.symm⟩
        · injection hp with hpe
          exact ⟨_, hpe.symm⟩
        · injection hp with hpe
          exact ⟨_, hpe.symm⟩
        · simp at hp
  · intro source
    constructor
    · rintro ⟨st, hst⟩
      rw [parseFrom] at hst
      rcases henv : parseYBMessage source with e | v
      · rw [henv] at hst
        dsimp only at hst
        simp at hst
      · obtain ⟨hdr, payload⟩ := v
        rw [henv] at hst
        dsimp only at hst
        rcases hrm : hdr.remote_method with _ | rm
        · rw [hrm] at hst
          dsimp only at hst
          simp at hst
        · rw [hrm] at hst
          dsimp only at hst
          rcases hsn : rm.service_name with _ | sn <;>
            rcases hmn : rm.method_name with _ | mn <;>
              rw [hsn, hmn] at hst <;> dsimp only at hst
          · simp at hst
          · simp at hst
          · simp at hst
          · exact ⟨hdr, payload, rfl, rm, hrm,
              by simp [RemoteMethodPB.isInitialized, hsn, hmn]⟩
    · rintro ⟨h, p, henv, rm, hrm, hinit⟩
      rw [RemoteMethodPB.isInitialized] at hinit
      simp only [Bool.and_eq_true, Option.isSome_iff_exists] at hinit
      obtain ⟨⟨sn, hsn⟩, ⟨mn, hmn⟩⟩ := hinit
      refine ⟨⟨h, p, ⟨sn, mn⟩⟩, ?_⟩
      rw [parseFrom, henv]
      dsimp only
      rw [hrm]
      dsimp only
      rw [hsn, hmn]
  · intro source st hst
    rw [parseFrom] at hst
    rcases henv : parseYBMessage source with e | v
    · rw [henv] at hst
      dsimp only at hst
      simp at hst
    · obtain ⟨hdr, payload⟩ := v
      rw [henv] at hst
      dsimp only at hst
      rcases hrm : hdr.remote_method with _ | rm
      · rw [hrm] at hst
        dsimp only at hst
        simp at hst
      · rw [hrm] at hst
        dsimp only at hst
        rcases hsn : rm.service_name with _ | sn <;>
          rcases hmn : rm.method_name with _ | mn <;>
            rw [hsn, hmn] at hst <;> dsimp only at hst
        · simp at hst
        · simp at hst
        · simp at hst
        · have hsteq : st = ⟨hdr, payload, ⟨sn, mn⟩⟩ := by
            simpa using hst.symm
          subst hsteq
          exact ⟨rm, hrm, hsn, hmn⟩
  · intro store
    rfl
  · intro store
    have hbody : (handleInboundCall store (encodeYBMessage ⟨7, none, none⟩ [6, 6])).status =
        .error (.corruption
          "Non-connection context request header must specify remote_method") := rfl
    have hlen : (encodeYBMessage ⟨7, none, none⟩ [6, 6]).length = 8 := rfl
    have henc : enc32 (encodeYBMessage ⟨7, none, none⟩ [6, 6]).length = [0, 0, 0, 8] := rfl
    rw [henc]
    have hframe : ([0, 0, 0, 8] : List Nat) ++ encodeYBMessage ⟨7, none, none⟩ [6, 6] =
        0 :: 0 :: 0 :: 8 :: encodeYBMessage ⟨7, none, none⟩ [6, 6] := rfl
    rw [hframe]
    have htk : (encodeYBMessage ⟨7, none, none⟩ [6, 6]).take (load32 0 0 0 8) =
        encodeYBMessage ⟨7, none, none⟩ [6, 6] := by
      rw [List.take_of_length_le]
      rw [hlen]
      norm_num [load32]
    rw [processCalls_handlerError_eq defaultMaxMessageSize _ 0 0 0 8
      (encodeYBMessage ⟨7, none, none⟩ [6, 6])
      (.corruption "Non-connection context request header must specify remote_method")
      (by norm_num [load32, kMsgLengthPrefixLength, defaultMaxMessageSize])
      (by rw [hlen]; norm_num [load32])
      (by rw [htk]; exact hbody)]

theorem parseFrom_corruption_spec_witness :
    handleInboundCall (fun _ => .ok ()) (encodeYBMessage ⟨7, none, none⟩ [6, 6]) =
      ⟨.error (.corruption
        "Non-connection context request header must specify remote_method"),
        [], []⟩ ∧
    (∃ st, parseFrom (encodeYBMessage ⟨9, some ⟨some [65], some [66]⟩, none⟩ [5]) =
      .ok st) :=
  ⟨parseFrom_corruption_spec.2.2.2.1 (fun _ => .ok ()),
   (parseFrom_corruption_spec.2.1
      (encodeYBMessage ⟨9, some ⟨some [65], some [66]⟩, none⟩ [5])).mpr
    ⟨⟨9, some ⟨some [65], some [66]⟩, none⟩, [5],
      decRequestHeader_enc ⟨9, some ⟨some [65], some [66]⟩, none⟩ [5]
        ⟨by norm_num, fun t ht => by simp at ht, fun m hm => by
          simp only [Option.some.injEq] at hm
          subst hm
          exact ⟨fun s hs => by simp at hs; subst hs; decide,
            fun s hs => by simp at hs; subst hs; decide⟩⟩,
      ⟨some [65], some [66]⟩, rfl, rfl⟩⟩

/-- C10: HandleInboundCall returns the ParseFrom error without invoking
Store or QueueInboundCall; when Store fails the call is stored but never
queued; and a call reaches the dispatch queue exactly when it was both
successfully parsed and successfully stored. -/
theorem handleInboundCall_gating
    (store : YBInboundCallState → Except RpcError Unit) (call_data : List Nat) :
    (∀ e, parseFrom call_data = .error e →
      handleInboundCall store call_data = ⟨.error e, [], []⟩) ∧
    (∀ call e, parseFrom call_data = .ok call → store call = .error e →
      handleInboundCall store call_data = ⟨.error e, [call], []⟩) ∧
    (∀ call, call ∈ (handleInboundCall store call_data).queued ↔
      (parseFrom call_data = .ok call ∧ store call = .ok ())) := by
  refine ⟨?_, ?_, ?_⟩
  · intro e he
    rw [handleInboundCall, he]
  · intro call e hp hs
    rw [handleInboundCall, hp]
    dsimp only
    rw [hs]
  · intro call
    constructor
    · intro hq
      rw [handleInboundCall] at hq
      rcases hp : parseFrom call_data with e | c
      · rw [hp] at hq
        simp at hq
      · rw [hp] at hq
        dsimp only at hq
        rcases hs : store c with e | u
        · rw [hs] at hq
          simp at hq
        · rw [hs] at hq
          simp only [List.mem_singleton] at hq
          subst hq
          exact ⟨rfl, by rw [hs]⟩
    · rintro ⟨hp, hs⟩
      rw [handleInboundCall, hp]
      dsimp only
      rw [hs]
      simp

theorem handleInboundCall_gating_witness :
    handleInboundCall (fun _ => .error (.other "store full"))
        (encodeYBMessage ⟨9, some ⟨some [65], some [66]⟩, none⟩ [5]) =
      ⟨.error (.other "store full"),
        [⟨⟨9, some ⟨some [65], some [66]⟩, none⟩, [5], ⟨[65], [66]⟩⟩], []⟩ ∧
    handleInboundCall (fun _ => .ok ()) (encodeYBMessage ⟨7, none, none⟩ [6, 6]) =
      ⟨.error (.corruption
        "Non-connection context request header must specify remote_method"),
        [], []⟩ :=
  ⟨(handleInboundCall_gating (fun _ => .error (.other "store full"))
      (encodeYBMessage ⟨9, some ⟨some [65], some [66]⟩, none⟩ [5])).2.1
      ⟨⟨9, some ⟨some [65], some [66]⟩, none⟩, [5], ⟨[65], [66]⟩⟩
      (.other "store full") rfl rfl,
   (handleInboundCall_gating (fun _ => .ok ())
      (encodeYBMessage ⟨7, none, none⟩ [6, 6])).1
      (.corruption "Non-connection context request header must specify remote_method")
      rfl⟩

theorem sidecarOffsetsLoop_no_wrap (sidecars : List (List Nat)) :
    ∀ start, start + (sidecars.map List.length).sum < 4294967296 →
      (sidecarOffsetsLoop start sidecars).1 =
        (List.range sidecars.length).map
          (fun i => start + ((sidecars.take i).map List.length).sum) ∧
      (sidecarOffsetsLoop start sidecars).2 =
        start + (sidecars.map List.length).sum := by
  induction sidecars with
  | nil =>
    intro start h
    simp [sidecarOffsetsLoop]
  | cons car cars ih =>
    intro start h
    simp only [List.map_cons, List.sum_cons] at h
    have hcar : u32 (start + car.length) = start + car.length := by
      rw [u32, Nat.mod_eq_of_lt]
      omega
    obtain ⟨ih1, ih2⟩ := ih (start + car.length) (by omega)
    simp only [sidecarOffsetsLoop, hcar]
    constructor
    · rw [ih1, List.length_cons, List.range_succ_eq_map, List.map_cons, List.map_map]
      refine List.cons_eq_cons.mpr ⟨by simp, ?_⟩
      apply List.map_congr_left
      intro i hi
      simp only [Function.comp_apply, List.take_succ_cons, List.map_cons,
        List.sum_cons]
      omega
    · rw [ih2]
      simp only [List.map_cons, List.sum_cons]
      omega

/-- C1 amended: the response header echoes the original call id, sets
is_error iff the responder was not the success responder, and — provided
payload size plus total sidecar bytes fits in 32 bits — records sidecar
offsets exactly [payload_size, payload_size+s0, payload_size+s0+s1, ...]
(the offsets are uint32 fields, so they wrap modulo 2^32 beyond that);
the total outbound byte count of Serialize always equals header size +
payload size + sum of sidecar sizes. -/
theorem serializeResponse_spec (header : RequestHeader)
    (sidecars : List (List Nat)) (payload : List Nat) (is_success : Bool) :
    (responseHeaderOf header sidecars payload is_success).call_id = header.call_id ∧
    (responseHeaderOf header sidecars payload is_success).is_error = !is_success ∧
    serializeCall (serializeResponseBuffer header sidecars payload is_success)
        sidecars =
      some (serializeResponseBuffer header sidecars payload is_success :: sidecars) ∧
    ((serializeResponseBuffer header sidecars payload is_success :: sidecars).map
        List.length).sum =
      (serializeHeaderBytes (responseHeaderOf header sidecars payload is_success)
          (payload.length + (sidecars.map List.length).sum)).length +
        payload.length + (sidecars.map List.length).sum ∧
    (payload.length + (sidecars.map List.length).sum < 4294967296 →
      (responseHeaderOf header sidecars payload is_success).sidecar_offsets =
        (List.range sidecars.length).map
          (fun i => payload.length + ((sidecars.take i).map List.length).sum)) := by
  have hlen_indep : ∀ (rh : ResponseHeader) (t t2 : Nat),
      (serializeHeaderBytes rh t).length = (serializeHeaderBytes rh t2).length := by
    intro rh t t2
    simp [serializeHeaderBytes, enc32]
  have hpos : 0 < (serializeResponseBuffer header sidecars payload is_success).length := by
    simp only [serializeResponseBuffer, serializeHeaderBytes, enc32,
      List.length_append, List.length_cons, List.length_nil]
    omega
  refine ⟨rfl, rfl, ?_, ?_, ?_⟩
  · rw [serializeCall, if_pos hpos]
  · simp only [List.map_cons, List.sum_cons, serializeResponseBuffer,
      List.length_append]
    rw [hlen_indep (responseHeaderOf header sidecars payload is_success) _
      (payload.length + (sidecars.map List.length).sum)]
  · intro hsz
    have hp : u32 payload.length = payload.length := by
      rw [u32, Nat.mod_eq_of_lt]
      omega
    obtain ⟨hoff, _⟩ :=
      sidecarOffsetsLoop_no_wrap sidecars payload.length (by omega)
    simp only [responseHeaderOf]
    rw [hp]
    exact hoff

theorem serializeResponse_spec_witness :
    (responseHeaderOf ⟨12, none, none⟩ [[4, 5], [6]] [1, 2, 3] false).call_id = 12 ∧
    (responseHeaderOf ⟨12, none, none⟩ [[4, 5], [6]] [1, 2, 3] false).is_error = true ∧
    (responseHeaderOf ⟨12, none, none⟩ [[4, 5], [6]] [1, 2, 3] false).sidecar_offsets =
      [3, 5] ∧
    ((serializeResponseBuffer ⟨12, none, none⟩ [[4, 5], [6]] [1, 2, 3] false ::
        [[4, 5], [6]]).map List.length).sum =
      (serializeHeaderBytes
          (responseHeaderOf ⟨12, none, none⟩ [[4, 5], [6]] [1, 2, 3] false) 6).length +
        3 + 3 :=
  ⟨(serializeResponse_spec ⟨12, none, none⟩ [[4, 5], [6]] [1, 2, 3] false).1,
   (serializeResponse_spec ⟨12, none, none⟩ [[4, 5], [6]] [1, 2, 3] false).2.1,
   (serializeResponse_spec ⟨12, none, none⟩ [[4, 5], [6]] [1, 2, 3] false).2.2.2.2
      (by decide),
   (serializeResponse_spec ⟨12, none, none⟩ [[4, 5], [6]] [1, 2, 3] false).2.2.2.1⟩

theorem responseHeader_offsets_wrap_general (A : List Nat)
    (hA : A.length = 4294967296) :
    (responseHeaderOf ⟨3, none, none⟩ [A, [0]] [] true).sidecar_offsets = [0, 0] ∧
    (List.range ([A, [0]] : List (List Nat)).length).map
        (fun i => ([] : List Nat).length +
          ((([A, [0]] : List (List Nat)).take i).map List.length).sum) =
      [0, 4294967296] := by
  constructor
  · simp [responseHeaderOf, sidecarOffsetsLoop, u32, hA]
  · simp [List.range_succ, hA]

/-- C1 as stated is refuted at a 4 GiB sidecar: absolute_sidecar_offset is
a uint32 (yb_rpc.cc:196), so after a sidecar of 2^32 bytes the recorded
offset wraps to 0 instead of the exact value payload_size + s0 =
4294967296 the claim demands. -/
theorem serializeResponse_offsets_wrap_cex :
    (responseHeaderOf ⟨3, none, none⟩ [List.replicate 4294967296 0, [0]] []
        true).sidecar_offsets = [0, 0] ∧
    ¬ ((responseHeaderOf ⟨3, none, none⟩ [List.replicate 4294967296 0, [0]] []
        true).sidecar_offsets =
      (List.range ([List.replicate 4294967296 0, [0]] : List (List Nat)).length).map
        (fun i => ([] : List Nat).length +
          ((([List.replicate 4294967296 0, [0]] : List (List Nat)).take i).map
            List.length).sum)) := by
  obtain ⟨h1, h2⟩ := responseHeader_offsets_wrap_general
    (List.replicate 4294967296 0) (List.length_replicate 4294967296 0)
  refine ⟨h1, ?_⟩
  rw [h1, h2]
  simp

/-- C7 as stated is refuted on the queuing half: when
SerializeResponseBuffer fails inside Respond, the failure is logged as a
DFATAL defect and no error is returned (Respond is void), but
QueueResponse(is_success) at yb_rpc.cc:352 sits outside the failure
if-block and runs regardless, so the call is still queued onto the
connection response path. -/
theorem respond_failure_still_queues_cex :
    (respond (.error (.corruption "serialize failed"))).loggedDFatal = true ∧
    (respond (.error (.corruption "serialize failed"))).queuedResponse = true :=
  ⟨rfl, rfl⟩

/-- C7 amended: a serialization failure inside Respond is logged as a
developer-facing defect and is not propagated (Respond returns void and
converts no status), but the response is still queued: QueueResponse runs
unconditionally after the failure check, exactly as on success. -/
theorem respond_failure_logs_and_still_queues (e : RpcError) :
    respond (.error e) = ⟨true, true⟩ ∧ respond (.ok ()) = ⟨false, true⟩ :=
  ⟨rfl, rfl⟩

/-- C8: the response buffer produced by any responder (each of
RespondSuccess, RespondFailure and RespondApplicationError serializes via
SerializeResponseBuffer) is non-empty — it starts with the serialized
response header, which begins with the 4-byte outer length prefix — so
the CHECK_GT(response_buf_.size(), 0) in Serialize (yb_rpc.cc:277) holds
and Serialize produces the response buffer followed by the sidecars. -/
theorem response_buffer_nonempty (header : RequestHeader)
    (sidecars : List (List Nat)) (payload : List Nat) (is_success : Bool) :
    0 < (serializeResponseBuffer header sidecars payload is_success).length ∧
    serializeCall (serializeResponseBuffer header sidecars payload is_success)
        sidecars =
      some (serializeResponseBuffer header sidecars payload is_success ::
        sidecars) := by
  have hpos : 0 < (serializeResponseBuffer header sidecars payload
      is_success).length := by
    simp only [serializeResponseBuffer, serializeHeaderBytes, enc32,
      List.length_append, List.length_cons, List.length_nil]
    omega
  exact ⟨hpos, by rw [serializeCall, if_pos hpos]⟩

theorem maxReceive_spec_witness :
    maxReceive [1] = kBigPacket ∧
    maxReceive [0, 0, 0, 5] = max kBigPacket (load32 0 0 0 5 + kMsgLengthPrefixLength) :=
  ⟨(maxReceive_spec [1]).1 (by decide),
   (maxReceive_spec [0, 0, 0, 5]).2 0 0 0 5 [] rfl⟩

end YbRpc
